import Mathlib

/-!
Verification of the CLAM string-matcher library (src/clam.h).

A null-terminated C string is modelled as the list of its bytes strictly
before the terminator; reading the byte at the cursor of a possibly empty
remainder is `headD 0` (the terminator byte 0 is what `input[0]` yields on
an empty remainder). Advancing the cursor by `i` is `List.drop i`. A
nullable `const char *` parameter (the wildcard allow-set) is an
`Option (List Nat)`. All match results are `Nat`, as the C result type
`clam_match_result_t` is an unsigned integer and no matcher here can
overflow it (results are bounded by string lengths).
-/

namespace Clam

/-- Reading the byte at the current cursor: the first byte of the remaining
list, or the terminator byte 0 when the remainder is empty. -/
def headC (s : List Nat) : Nat := s.headD 0

/-- A list models a valid C string when it holds no terminator byte:
the bytes of the string are exactly the bytes before the terminator. -/
def ValidStr (s : List Nat) : Prop := ∀ c ∈ s, c ≠ 0

/-- A nullable allow-set parameter is valid when, if present, it is a
valid string. -/
def ValidOpt (o : Option (List Nat)) : Prop := ∀ c ∈ o.getD [], c ≠ 0

instance (s : List Nat) : Decidable (ValidStr s) := by
  unfold ValidStr; infer_instance

instance (o : Option (List Nat)) : Decidable (ValidOpt o) := by
  unfold ValidOpt; infer_instance

/-- Embeds `clam_match_char` from src/clam.h: `return input[0] == c;`. -/
def clam_match_char (input : List Nat) (c : Nat) : Nat :=
  if headC input = c then 1 else 0

/-- Embeds `clam_match_end` from src/clam.h: `return clam_match_char(input, 0);`. -/
def clam_match_end (input : List Nat) : Nat :=
  clam_match_char input 0

/-- The scanning loop of `clam_match_anychar`: walk `chars` until its
terminator, returning the first successful `clam_match_char(input, chars[i])`
(which is 1), or 0 when `chars` is exhausted. -/
def anycharLoop (input : List Nat) : List Nat → Nat
  | [] => 0
  | c :: rest =>
    if c = 0 then 0
    else if clam_match_char input c = 0 then anycharLoop input rest
    else clam_match_char input c

/-- Embeds `clam_match_anychar` from src/clam.h: 0 on empty input, 1 on a null
(wildcard) `chars`, otherwise the scan of `chars` for `input[0]`. -/
def clam_match_anychar (input : List Nat) (chars : Option (List Nat)) : Nat :=
  if clam_match_end input ≠ 0 then 0
  else
    match chars with
    | none => 1
    | some cs => anycharLoop input cs

/-- The shared lock-step loop of `clam_match_at_least_n_chars` and
`clam_match_chars`: count positions while neither side is at its
terminator and the bytes agree. -/
def lockstep : List Nat → List Nat → Nat
  | [], _ => 0
  | _ :: _, [] => 0
  | a :: as, b :: bs =>
    if clam_match_end (a :: as) = 0 ∧ clam_match_end (b :: bs) = 0 ∧
       clam_match_char (a :: as) b ≠ 0
    then lockstep as bs + 1 else 0

/-- Embeds `clam_match_at_least_n_chars` from src/clam.h: the lock-step count `i`,
returned when `i >= n`, else 0. -/
def clam_match_at_least_n_chars (input : List Nat) (n : Nat) (chars : List Nat) : Nat :=
  let i := lockstep input chars
  if i ≥ n then i else 0

/-- Embeds `clam_match_chars` from src/clam.h: the lock-step count `i`, returned
when `chars` is at its terminator after `i` steps, else 0. -/
def clam_match_chars (input chars : List Nat) : Nat :=
  let i := lockstep input chars
  if clam_match_end (chars.drop i) ≠ 0 then i else 0

/-- Embeds `clam_match_chars_to_end` from src/clam.h: a `clam_match_chars` match
that must also exhaust the input. -/
def clam_match_chars_to_end (input chars : List Nat) : Nat :=
  let i := clam_match_chars input chars
  if i = 0 then 0
  else if clam_match_end (input.drop i) ≠ 0 then i else 0

/-- Embeds `clam_match_numeric10_char` from src/clam.h: byte range 48..57. -/
def clam_match_numeric10_char (input : List Nat) : Nat :=
  if 48 ≤ headC input ∧ headC input ≤ 57 then 1 else 0

/-- Embeds `clam_match_unsigned_integer10` from src/clam.h: count the maximal
leading run of base-10 digit bytes. -/
def clam_match_unsigned_integer10 : List Nat → Nat
  | [] => 0
  | a :: as =>
    if clam_match_numeric10_char (a :: as) ≠ 0
    then clam_match_unsigned_integer10 as + 1 else 0

/-- The sign set `clam__signs = "-+"` from src/clam.h. -/
def clam__signs : List Nat := [45, 43]

/-- Embeds `clam_match_signed_integer10` from src/clam.h: optional sign via
`clam_match_anychar`, then a mandatory digit run on the remainder. -/
def clam_match_signed_integer10 (input : List Nat) : Nat :=
  let sign := clam_match_anychar input (some clam__signs)
  let number := clam_match_unsigned_integer10 (input.drop sign)
  if number ≠ 0 then sign + number else 0

/-- Embeds `clam_match_numeric16_char` from src/clam.h: 48..57, 65..70, 97..102. -/
def clam_match_numeric16_char (input : List Nat) : Nat :=
  if (48 ≤ headC input ∧ headC input ≤ 57) ∨
     (65 ≤ headC input ∧ headC input ≤ 70) ∨
     (97 ≤ headC input ∧ headC input ≤ 102) then 1 else 0

/-- Embeds `clam_match_uppercase_char` from src/clam.h: byte range 65..90. -/
def clam_match_uppercase_char (input : List Nat) : Nat :=
  if 65 ≤ headC input ∧ headC input ≤ 90 then 1 else 0

/-- Embeds `clam_match_lowercase_char` from src/clam.h: byte range 97..122. -/
def clam_match_lowercase_char (input : List Nat) : Nat :=
  if 97 ≤ headC input ∧ headC input ≤ 122 then 1 else 0

/-- Embeds `clam_match_alpha_char` from src/clam.h: lowercase or uppercase. -/
def clam_match_alpha_char (input : List Nat) : Nat :=
  if clam_match_lowercase_char input ≠ 0 ∨ clam_match_uppercase_char input ≠ 0
  then 1 else 0

/-- Embeds `clam_match_alphanumeric_char` from src/clam.h: alpha or digit. -/
def clam_match_alphanumeric_char (input : List Nat) : Nat :=
  if clam_match_alpha_char input ≠ 0 ∨ clam_match_numeric10_char input ≠ 0
  then 1 else 0

/-- Embeds `clam_match_posix_option` from src/clam.h: a dash, then one
alphanumeric byte that the allow-set accepts; result 2 or 0. -/
def clam_match_posix_option (input : List Nat) (allowed_options : Option (List Nat)) : Nat :=
  if clam_match_char input 45 ≠ 0 ∧
     clam_match_alphanumeric_char (input.drop 1) ≠ 0 ∧
     clam_match_anychar (input.drop 1) allowed_options ≠ 0
  then 2 else 0

/-- Embeds `clam_match_posix_long_option` from src/clam.h: a dash, then a
`clam_match_chars` prefix match of `option` on the remainder. -/
def clam_match_posix_long_option (input opt : List Nat) : Nat :=
  let dash := clam_match_char input 45
  if dash = 0 then 0
  else
    let o := clam_match_chars (input.drop dash) opt
    if o ≠ 0 then dash + o else 0

/-- The scanning loop of `clam_match_posix_flags`: walk the remainder after
the dash until the terminator; every byte must be alphanumeric and accepted
by the allow-set, else the whole match fails (`none`). Returns the number
of bytes walked. -/
def flagsLoop (allowed_options : Option (List Nat)) : List Nat → Option Nat
  | [] => some 0
  | a :: as =>
    if clam_match_end (a :: as) ≠ 0 then some 0
    else if clam_match_alphanumeric_char (a :: as) ≠ 0 ∧
            clam_match_anychar (a :: as) allowed_options ≠ 0
    then (flagsLoop allowed_options as).map (· + 1)
    else none

/-- Embeds `clam_match_posix_flags` from src/clam.h: a dash, then the flag scan;
the final count (dash included) is returned only when it exceeds 1. -/
def clam_match_posix_flags (input : List Nat) (allowed_options : Option (List Nat)) : Nat :=
  let i := clam_match_char input 45
  if i = 0 then 0
  else
    match flagsLoop allowed_options (input.drop 1) with
    | none => 0
    | some k => if i + k > 1 then i + k else 0

/-- The literal `clam__dashes = "--"` from src/clam.h. -/
def clam__dashes : List Nat := [45, 45]

/-- Embeds `clam_match_posix_terminate_options` from src/clam.h. -/
def clam_match_posix_terminate_options (input : List Nat) : Nat :=
  clam_match_chars_to_end input clam__dashes

/-- Embeds `clam_match_windows_switch` from src/clam.h: as the POSIX option with
a forward slash (byte 47) instead of a dash. -/
def clam_match_windows_switch (input : List Nat) (allowed_switches : Option (List Nat)) : Nat :=
  if clam_match_char input 47 ≠ 0 ∧
     clam_match_alphanumeric_char (input.drop 1) ≠ 0 ∧
     clam_match_anychar (input.drop 1) allowed_switches ≠ 0
  then 2 else 0

/-- Embeds `clam_match_windows_long_switch` from src/clam.h: as the POSIX long
option with a forward slash instead of a dash. -/
def clam_match_windows_long_switch (input switch_s : List Nat) : Nat :=
  let slash := clam_match_char input 47
  if slash = 0 then 0
  else
    let swtch := clam_match_chars (input.drop slash) switch_s
    if swtch ≠ 0 then slash + swtch else 0

/-! Specification-side definitions, written from the wording of the spec,
to be compared with the embedded code. -/

/-- The length of the longest common prefix of two byte lists (the number
of equal leading characters, bounded by the shorter of the two). -/
def lcp : List Nat → List Nat → Nat
  | [], _ => 0
  | _ :: _, [] => 0
  | a :: as, b :: bs => if a = b then lcp as bs + 1 else 0

/-- The length of the maximal leading run of base-10 digit bytes. -/
def digitRun : List Nat → Nat
  | [] => 0
  | a :: as => if 48 ≤ a ∧ a ≤ 57 then digitRun as + 1 else 0

/-- ASCII alphanumeric byte: a lowercase letter, an uppercase letter, or a
base-10 digit. -/
def isAlnum (c : Nat) : Prop :=
  (97 ≤ c ∧ c ≤ 122) ∨ (65 ≤ c ∧ c ≤ 90) ∨ (48 ≤ c ∧ c ≤ 57)

instance (c : Nat) : Decidable (isAlnum c) := by
  unfold isAlnum; infer_instance

/-- Acceptance by a nullable allow-set: the null wildcard accepts every
byte, a present set accepts exactly its members. -/
def allowedMem : Option (List Nat) → Nat → Prop
  | none, _ => True
  | some l, c => c ∈ l

instance : ∀ (o : Option (List Nat)) (c : Nat), Decidable (allowedMem o c)
  | none, _ => isTrue trivial
  | some l, c => inferInstanceAs (Decidable (c ∈ l))

/-! Helper lemmas. -/

lemma headC_nil : headC [] = 0 := rfl

lemma headC_cons (a : Nat) (as : List Nat) : headC (a :: as) = a := rfl

lemma valid_cons {a : Nat} {as : List Nat} (h : ValidStr (a :: as)) :
    a ≠ 0 ∧ ValidStr as :=
  ⟨h a (by simp), fun x hx => h x (by simp [hx])⟩

lemma one_le_length_of_headC_ne {s : List Nat} (h : headC s ≠ 0) :
    1 ≤ s.length := by
  cases s with
  | nil => simp [headC] at h
  | cons a as => simp

lemma clam_match_char_eq (s : List Nat) (c : Nat) :
    clam_match_char s c = if headC s = c then 1 else 0 := rfl

lemma clam_match_char_le_one (s : List Nat) (c : Nat) :
    clam_match_char s c ≤ 1 := by
  rw [clam_match_char_eq]; split_ifs <;> simp

lemma clam_match_char_ne_zero {s : List Nat} {c : Nat} :
    clam_match_char s c ≠ 0 ↔ headC s = c := by
  rw [clam_match_char_eq]; split_ifs with h <;> simp [h]

lemma clam_match_end_ne_zero {s : List Nat} :
    clam_match_end s ≠ 0 ↔ headC s = 0 :=
  clam_match_char_ne_zero

lemma anycharLoop_le_one (s l : List Nat) : anycharLoop s l ≤ 1 := by
  induction l with
  | nil => simp [anycharLoop]
  | cons c rest ih =>
    simp only [anycharLoop]
    split_ifs with h1 h2
    · simp
    · exact ih
    · exact clam_match_char_le_one s c

lemma anycharLoop_headC (s t l : List Nat) (h : headC s = headC t) :
    anycharLoop s l = anycharLoop t l := by
  induction l with
  | nil => rfl
  | cons c rest ih => simp only [anycharLoop, clam_match_char_eq, h, ih]

lemma anycharLoop_eq_mem (s : List Nat) {l : List Nat} (hl : ValidStr l) :
    anycharLoop s l = if headC s ∈ l then 1 else 0 := by
  induction l with
  | nil => simp [anycharLoop]
  | cons c rest ih =>
    obtain ⟨hc, hrest⟩ := valid_cons hl
    simp only [anycharLoop, clam_match_char_eq, hc, if_neg hc]
    by_cases h : headC s = c
    · simp [h]
    · simp [h, ih hrest, Ne.symm h]

lemma anycharLoop_pos_mem {s l : List Nat} (h : anycharLoop s l ≠ 0) :
    headC s ∈ l := by
  induction l with
  | nil => simp [anycharLoop] at h
  | cons c rest ih =>
    simp only [anycharLoop] at h
    split_ifs at h with h1 h2
    · exact absurd rfl h
    · exact List.mem_cons_of_mem _ (ih h)
    · rw [clam_match_char_ne_zero.mp h2]; exact List.mem_cons_self c rest

lemma clam_match_anychar_le_one (s : List Nat) (o : Option (List Nat)) :
    clam_match_anychar s o ≤ 1 := by
  unfold clam_match_anychar
  split_ifs with h
  · simp
  · cases o with
    | none => simp
    | some l => exact anycharLoop_le_one s l

lemma clam_match_anychar_nil (o : Option (List Nat)) :
    clam_match_anychar [] o = 0 := by
  simp [clam_match_anychar, clam_match_end, clam_match_char, headC]

lemma clam_match_anychar_headC (s t : List Nat) (o : Option (List Nat))
    (h : headC s = headC t) :
    clam_match_anychar s o = clam_match_anychar t o := by
  cases o with
  | none => simp [clam_match_anychar, clam_match_end, clam_match_char_eq, h]
  | some l =>
    simp [clam_match_anychar, clam_match_end, clam_match_char_eq, h,
      anycharLoop_headC s t l h]

lemma clam_match_anychar_signs (s : List Nat) :
    clam_match_anychar s (some clam__signs) =
      if headC s = 45 ∨ headC s = 43 then 1 else 0 := by
  simp only [clam_match_anychar, clam__signs, anycharLoop, clam_match_end,
    clam_match_char_eq]
  split_ifs <;> first | rfl | omega | contradiction

lemma anychar_pos_iff {s : List Nat} {o : Option (List Nat)} (ho : ValidOpt o)
    (hs : headC s ≠ 0) :
    clam_match_anychar s o ≠ 0 ↔ allowedMem o (headC s) := by
  cases o with
  | none =>
    simp [clam_match_anychar, clam_match_end, clam_match_char_eq, hs, allowedMem]
  | some l =>
    have hl : ValidStr l := ho
    simp [clam_match_anychar, clam_match_end, clam_match_char_eq, hs,
      anycharLoop_eq_mem s hl, allowedMem]

lemma lockstep_le_left : ∀ a b : List Nat, lockstep a b ≤ a.length
  | [], _ => by simp [lockstep]
  | _ :: _, [] => by simp [lockstep]
  | a :: as, b :: bs => by
    have ih := lockstep_le_left as bs
    simp only [lockstep]
    split_ifs <;> simp <;> omega

lemma lockstep_le_right : ∀ a b : List Nat, lockstep a b ≤ b.length
  | [], _ => by simp [lockstep]
  | _ :: _, [] => by simp [lockstep]
  | a :: as, b :: bs => by
    have ih := lockstep_le_right as bs
    simp only [lockstep]
    split_ifs <;> simp <;> omega

lemma lockstep_eq_lcp : ∀ a b : List Nat, ValidStr a → ValidStr b →
    lockstep a b = lcp a b
  | [], b, _, _ => by cases b <;> simp [lockstep, lcp]
  | _ :: _, [], _, _ => by simp [lockstep, lcp]
  | a :: as, b :: bs, ha, hb => by
    obtain ⟨ha0, has⟩ := valid_cons ha
    obtain ⟨hb0, hbs⟩ := valid_cons hb
    have ih := lockstep_eq_lcp as bs has hbs
    simp only [lockstep, lcp, clam_match_end, clam_match_char_eq, headC_cons, ih]
    split_ifs <;> first | rfl | omega

lemma lcp_le_left (a b : List Nat) (ha : ValidStr a) (hb : ValidStr b) :
    lcp a b ≤ a.length := by
  rw [← lockstep_eq_lcp a b ha hb]; exact lockstep_le_left a b

lemma lcp_le_right (a b : List Nat) (ha : ValidStr a) (hb : ValidStr b) :
    lcp a b ≤ b.length := by
  rw [← lockstep_eq_lcp a b ha hb]; exact lockstep_le_right a b

lemma unsigned_eq_digitRun : ∀ s : List Nat,
    clam_match_unsigned_integer10 s = digitRun s
  | [] => rfl
  | a :: as => by
    have ih := unsigned_eq_digitRun as
    simp only [clam_match_unsigned_integer10, digitRun,
      clam_match_numeric10_char, headC_cons, ih]
    split_ifs <;> first | rfl | omega | contradiction

lemma digitRun_le (s : List Nat) : digitRun s ≤ s.length := by
  induction s with
  | nil => simp [digitRun]
  | cons a as ih =>
    simp only [digitRun]
    split_ifs <;> simp <;> omega

lemma alnum_eq (s : List Nat) :
    clam_match_alphanumeric_char s = if isAlnum (headC s) then 1 else 0 := by
  simp only [clam_match_alphanumeric_char, clam_match_alpha_char,
    clam_match_lowercase_char, clam_match_uppercase_char,
    clam_match_numeric10_char, isAlnum]
  split_ifs <;> first | rfl | omega

lemma alnum_headC_ne_zero {s : List Nat}
    (h : clam_match_alphanumeric_char s ≠ 0) : headC s ≠ 0 := by
  rw [alnum_eq] at h
  split_ifs at h with hA
  · unfold isAlnum at hA; omega
  · exact absurd rfl h

lemma flagsLoop_le : ∀ (o : Option (List Nat)) (l : List Nat) (k : Nat),
    flagsLoop o l = some k → k ≤ l.length
  | o, [], k, h => by simp [flagsLoop] at h; omega
  | o, a :: as, k, h => by
    simp only [flagsLoop] at h
    split_ifs at h with h1 h2
    · simp at h; omega
    · obtain ⟨k2, hk2, hkk⟩ := Option.map_eq_some'.mp h
      have := flagsLoop_le o as k2 hk2
      simp; omega

lemma flagsLoop_valid_len : ∀ (o : Option (List Nat)) (l : List Nat),
    ValidStr l → ∀ k : Nat, flagsLoop o l = some k → k = l.length
  | o, [], _, k, h => by simp [flagsLoop] at h; simp [← h]
  | o, a :: as, hv, k, h => by
    obtain ⟨ha0, has⟩ := valid_cons hv
    simp only [flagsLoop, clam_match_end_ne_zero, headC_cons] at h
    rw [if_neg (by simpa using ha0)] at h
    split_ifs at h with h2
    · obtain ⟨k2, hk2, hkk⟩ := Option.map_eq_some'.mp h
      have := flagsLoop_valid_len o as has k2 hk2
      simp; omega

lemma flagsLoop_mem : ∀ (o : Option (List Nat)) (l : List Nat),
    ValidOpt o → ValidStr l → ∀ k : Nat, flagsLoop o l = some k →
    ∀ c ∈ l, isAlnum c ∧ allowedMem o c
  | o, [], _, _, k, h => by simp
  | o, a :: as, ho, hv, k, h => by
    obtain ⟨ha0, has⟩ := valid_cons hv
    simp only [flagsLoop, clam_match_end_ne_zero, headC_cons] at h
    rw [if_neg (by simpa using ha0)] at h
    split_ifs at h with h2
    · obtain ⟨h21, h22⟩ := h2
      obtain ⟨k2, hk2, -⟩ := Option.map_eq_some'.mp h
      intro c hc
      rcases List.mem_cons.mp hc with rfl | hc2
      · refine ⟨?_, ?_⟩
        · have := alnum_eq (c :: as)
          rw [this, headC_cons] at h21
          split_ifs at h21 with hA
          · exact hA
          · exact absurd rfl h21
        · exact (anychar_pos_iff ho (by simpa using ha0)).mp h22
      · exact flagsLoop_mem o as ho has k2 hk2 c hc2

lemma le_one_le_length {f : List Nat → Nat} (hf : ∀ s, f s ≤ 1)
    (h0 : f [] = 0) (s : List Nat) : f s ≤ s.length := by
  cases s with
  | nil => simp [h0]
  | cons a as => have := hf (a :: as); simp; omega

lemma clam_match_char_le (s : List Nat) {c : Nat} (hc : c ≠ 0) :
    clam_match_char s c ≤ s.length := by
  refine le_one_le_length (fun t => clam_match_char_le_one t c) ?_ s
  simp [clam_match_char_eq, headC_nil, Ne.symm hc]

lemma clam_match_anychar_le (s : List Nat) (o : Option (List Nat)) :
    clam_match_anychar s o ≤ s.length :=
  le_one_le_length (fun t => clam_match_anychar_le_one t o)
    (clam_match_anychar_nil o) s

lemma clam_match_numeric10_char_le (s : List Nat) :
    clam_match_numeric10_char s ≤ s.length := by
  refine le_one_le_length (fun t => ?_) (by decide) s
  unfold clam_match_numeric10_char; split_ifs <;> simp

lemma clam_match_numeric16_char_le (s : List Nat) :
    clam_match_numeric16_char s ≤ s.length := by
  refine le_one_le_length (fun t => ?_) (by decide) s
  unfold clam_match_numeric16_char; split_ifs <;> simp

lemma clam_match_uppercase_char_le (s : List Nat) :
    clam_match_uppercase_char s ≤ s.length := by
  refine le_one_le_length (fun t => ?_) (by decide) s
  unfold clam_match_uppercase_char; split_ifs <;> simp

lemma clam_match_lowercase_char_le (s : List Nat) :
    clam_match_lowercase_char s ≤ s.length := by
  refine le_one_le_length (fun t => ?_) (by decide) s
  unfold clam_match_lowercase_char; split_ifs <;> simp

lemma clam_match_alpha_char_le (s : List Nat) :
    clam_match_alpha_char s ≤ s.length := by
  refine le_one_le_length (fun t => ?_) (by decide) s
  unfold clam_match_alpha_char; split_ifs <;> simp

lemma clam_match_alphanumeric_char_le (s : List Nat) :
    clam_match_alphanumeric_char s ≤ s.length := by
  refine le_one_le_length (fun t => ?_) (by decide) s
  unfold clam_match_alphanumeric_char; split_ifs <;> simp

lemma clam_match_at_least_n_chars_le (s : List Nat) (n : Nat) (cs : List Nat) :
    clam_match_at_least_n_chars s n cs ≤ s.length := by
  have := lockstep_le_left s cs
  simp only [clam_match_at_least_n_chars]
  split_ifs <;> omega

lemma clam_match_chars_le (s cs : List Nat) :
    clam_match_chars s cs ≤ s.length := by
  have := lockstep_le_left s cs
  simp only [clam_match_chars]
  split_ifs <;> omega

lemma clam_match_chars_to_end_le (s cs : List Nat) :
    clam_match_chars_to_end s cs ≤ s.length := by
  have := clam_match_chars_le s cs
  simp only [clam_match_chars_to_end]
  split_ifs <;> omega

lemma clam_match_unsigned_integer10_le (s : List Nat) :
    clam_match_unsigned_integer10 s ≤ s.length := by
  rw [unsigned_eq_digitRun]; exact digitRun_le s

lemma clam_match_signed_integer10_le (s : List Nat) :
    clam_match_signed_integer10 s ≤ s.length := by
  have hsign : clam_match_anychar s (some clam__signs) = 0 ∨
      (clam_match_anychar s (some clam__signs) = 1 ∧ 1 ≤ s.length) := by
    rw [clam_match_anychar_signs]
    split_ifs with h
    · exact Or.inr ⟨rfl, one_le_length_of_headC_ne (by omega)⟩
    · exact Or.inl rfl
  have hnum := clam_match_unsigned_integer10_le
    (s.drop (clam_match_anychar s (some clam__signs)))
  rw [List.length_drop] at hnum
  simp only [clam_match_signed_integer10]
  split_ifs <;> omega

lemma clam_match_posix_option_le (s : List Nat) (o : Option (List Nat)) :
    clam_match_posix_option s o ≤ s.length := by
  simp only [clam_match_posix_option]
  split_ifs with h
  · obtain ⟨-, h2, -⟩ := h
    have h3 := one_le_length_of_headC_ne (alnum_headC_ne_zero h2)
    rw [List.length_drop] at h3
    omega
  · simp

lemma clam_match_posix_long_option_le (s cs : List Nat) :
    clam_match_posix_long_option s cs ≤ s.length := by
  simp only [clam_match_posix_long_option]
  split_ifs with h1 h2
  · simp
  · have hd : headC s = 45 := by
      by_contra hx
      exact h1 (by simp [clam_match_char_eq, hx])
    have h1' : clam_match_char s 45 = 1 := by simp [clam_match_char_eq, hd]
    have hlen : 1 ≤ s.length := one_le_length_of_headC_ne (by omega)
    have hc := clam_match_chars_le (s.drop (clam_match_char s 45)) cs
    rw [List.length_drop] at hc
    omega
  · simp

lemma clam_match_posix_flags_le (s : List Nat) (o : Option (List Nat)) :
    clam_match_posix_flags s o ≤ s.length := by
  simp only [clam_match_posix_flags]
  split_ifs with h1
  · simp
  · have hd : headC s = 45 := by
      by_contra hx
      exact h1 (by simp [clam_match_char_eq, hx])
    have h1' : clam_match_char s 45 = 1 := by simp [clam_match_char_eq, hd]
    have hlen : 1 ≤ s.length := one_le_length_of_headC_ne (by omega)
    cases hfl : flagsLoop o (s.drop 1) with
    | none => simp
    | some k =>
      have hk := flagsLoop_le o (s.drop 1) k hfl
      rw [List.length_drop] at hk
      dsimp only
      split_ifs <;> omega

lemma clam_match_posix_terminate_options_le (s : List Nat) :
    clam_match_posix_terminate_options s ≤ s.length :=
  clam_match_chars_to_end_le s clam__dashes

lemma clam_match_windows_switch_le (s : List Nat) (o : Option (List Nat)) :
    clam_match_windows_switch s o ≤ s.length := by
  simp only [clam_match_windows_switch]
  split_ifs with h
  · obtain ⟨-, h2, -⟩ := h
    have h3 := one_le_length_of_headC_ne (alnum_headC_ne_zero h2)
    rw [List.length_drop] at h3
    omega
  · simp

lemma clam_match_windows_long_switch_le (s cs : List Nat) :
    clam_match_windows_long_switch s cs ≤ s.length := by
  simp only [clam_match_windows_long_switch]
  split_ifs with h1 h2
  · simp
  · have hd : headC s = 47 := by
      by_contra hx
      exact h1 (by simp [clam_match_char_eq, hx])
    have h1' : clam_match_char s 47 = 1 := by simp [clam_match_char_eq, hd]
    have hlen : 1 ≤ s.length := one_le_length_of_headC_ne (by omega)
    have hc := clam_match_chars_le (s.drop (clam_match_char s 47)) cs
    rw [List.length_drop] at hc
    omega
  · simp

lemma headC_eq_zero_iff {s : List Nat} (h : ValidStr s) :
    headC s = 0 ↔ s = [] := by
  cases s with
  | nil => simp [headC_nil]
  | cons a as =>
    obtain ⟨ha, -⟩ := valid_cons h
    simp [headC_cons, ha]

lemma valid_drop {s : List Nat} (n : Nat) (h : ValidStr s) :
    ValidStr (s.drop n) :=
  fun c hc => h c (List.mem_of_mem_drop hc)

lemma lockstep_cons (a b : Nat) (as bs : List Nat) (ha : a ≠ 0) (hb : b ≠ 0) :
    lockstep (a :: as) (b :: bs) = if a = b then lockstep as bs + 1 else 0 := by
  simp only [lockstep, clam_match_end, clam_match_char_eq, headC_cons]
  split_ifs <;> first | rfl | omega | contradiction

lemma lockstep_end_iff : ∀ (input chars : List Nat), ValidStr input →
    ValidStr chars →
    (clam_match_end (chars.drop (lockstep input chars)) ≠ 0 ↔ chars <+: input)
  | input, [], _, _ => by
    cases input with
    | nil => simp [lockstep, clam_match_end_ne_zero, headC_nil]
    | cons a as => simp [lockstep, clam_match_end_ne_zero, headC_nil]
  | [], b :: bs, _, hc => by
    obtain ⟨hb, -⟩ := valid_cons hc
    simp [lockstep, clam_match_end_ne_zero, headC_cons, hb]
  | a :: as, b :: bs, hi, hc => by
    obtain ⟨ha, has⟩ := valid_cons hi
    obtain ⟨hb, hbs⟩ := valid_cons hc
    have ih := lockstep_end_iff as bs has hbs
    rw [lockstep_cons a b as bs ha hb, List.cons_prefix_cons]
    by_cases hab : a = b
    · rw [if_pos hab, List.drop_succ_cons]
      constructor
      · intro hx
        exact ⟨hab.symm, ih.mp hx⟩
      · rintro ⟨-, h2⟩
        exact ih.mpr h2
    · rw [if_neg hab, List.drop_zero]
      simp only [clam_match_end_ne_zero, headC_cons]
      constructor
      · intro hx
        exact absurd hx hb
      · rintro ⟨hba, -⟩
        exact absurd hba.symm hab

lemma lockstep_len_of_pref : ∀ (input chars : List Nat), ValidStr input →
    ValidStr chars → chars <+: input → lockstep input chars = chars.length
  | input, [], _, _, _ => by cases input <;> simp [lockstep]
  | [], b :: bs, _, _, hp => by simp at hp
  | a :: as, b :: bs, hi, hc, hp => by
    obtain ⟨ha, has⟩ := valid_cons hi
    obtain ⟨hb, hbs⟩ := valid_cons hc
    obtain ⟨hba, hp2⟩ := List.cons_prefix_cons.mp hp
    rw [lockstep_cons a b as bs ha hb, if_pos hba.symm,
      lockstep_len_of_pref as bs has hbs hp2]
    simp

lemma clam_match_chars_pref_form (input chars : List Nat) (hi : ValidStr input)
    (hc : ValidStr chars) :
    clam_match_chars input chars =
      if chars <+: input then chars.length else 0 := by
  simp only [clam_match_chars]
  by_cases hp : chars <+: input
  · rw [if_pos ((lockstep_end_iff input chars hi hc).mpr hp), if_pos hp,
      lockstep_len_of_pref input chars hi hc hp]
  · rw [if_neg (fun hx => hp ((lockstep_end_iff input chars hi hc).mp hx)),
      if_neg hp]

lemma clam_match_chars_to_end_eq (input chars : List Nat) (hi : ValidStr input)
    (hc : ValidStr chars) :
    clam_match_chars_to_end input chars =
      if input = chars ∧ chars ≠ [] then chars.length else 0 := by
  simp only [clam_match_chars_to_end,
    clam_match_chars_pref_form input chars hi hc]
  by_cases hp : chars <+: input
  · rw [if_pos hp]
    by_cases hnil : chars = []
    · subst hnil
      simp
    · have hlen : chars.length ≠ 0 := by
        simpa [List.length_eq_zero] using hnil
      rw [if_neg hlen]
      have hvd := valid_drop (s := input) chars.length hi
      simp only [clam_match_end_ne_zero, headC_eq_zero_iff hvd,
        List.drop_eq_nil_iff]
      by_cases hle : input.length ≤ chars.length
      · have heq : chars = input :=
          hp.eq_of_length (Nat.le_antisymm hp.length_le hle)
        rw [if_pos hle, if_pos ⟨heq.symm, hnil⟩]
      · rw [if_neg hle, if_neg ?_]
        rintro ⟨rfl, -⟩
        exact hle le_rfl
  · rw [if_neg hp, if_pos rfl, if_neg ?_]
    rintro ⟨rfl, -⟩
    exact hp List.prefix_rfl

/-! Claim theorems. -/

/-- Claim C1, counterexample: with empty input and the terminator character
0, clam_match_char returns 1, although the input is empty — refuting the
claim that the result is 1 exactly when the input is non-empty with first
character c, for every c including the terminator. -/
theorem match_char_terminator_counterexample :
    ¬ (clam_match_char [] 0 = 1 ↔ (([] : List Nat) ≠ [] ∧ headC [] = 0)) := by
  decide

/-- Claim C1 as amended: for every input s and character c,
clam_match_char s c is 1 when s is non-empty with first character c, or
when s is empty and c is the terminator; otherwise it is 0. -/
theorem match_char_characterization (s : List Nat) (c : Nat) :
    clam_match_char s c =
      if (s ≠ [] ∧ headC s = c) ∨ (s = [] ∧ c = 0) then 1 else 0 := by
  cases s with
  | nil =>
    simp only [clam_match_char_eq, headC_nil]
    split_ifs <;> simp_all <;> omega
  | cons a as =>
    simp only [clam_match_char_eq, headC_cons]
    split_ifs <;> simp_all

/-- Claim C2: clam_match_end of a valid string returns 1 when the string
is empty and 0 when it is non-empty — the end matcher reports its success
with the positive value 1. -/
theorem match_end_characterization (s : List Nat) (h : ValidStr s) :
    clam_match_end s = if s = [] then 1 else 0 := by
  cases s with
  | nil => rfl
  | cons a as =>
    obtain ⟨ha, -⟩ := valid_cons h
    simp [clam_match_end, clam_match_char_eq, headC_cons, ha]

/-- Witness for claim C2 at the empty string and at the string of the
single byte 65. -/
theorem match_end_characterization_witness :
    clam_match_end [] = 1 ∧ clam_match_end [65] = 0 := by
  constructor
  · have h := match_end_characterization [] (by decide)
    simpa using h
  · have h := match_end_characterization [65] (by decide)
    simpa using h

/-- Claim C3: clam_match_anychar returns 0 on empty input; on non-empty
input it returns 1 for the null wildcard set; for a present (possibly
empty) set it returns 1 exactly when some character of the set equals the
first character of the input, else 0 — so the wildcard and the empty set
are distinct (the empty set accepts nothing). -/
theorem match_anychar_characterization (s : List Nat) (o : Option (List Nat))
    (hs : ValidStr s) (ho : ValidOpt o) :
    clam_match_anychar s o =
      if s = [] then 0
      else
        match o with
        | none => 1
        | some l => if headC s ∈ l then 1 else 0 := by
  cases s with
  | nil => rw [clam_match_anychar_nil]; simp
  | cons a as =>
    obtain ⟨ha, -⟩ := valid_cons hs
    cases o with
    | none =>
      simp [clam_match_anychar, clam_match_end, clam_match_char_eq,
        headC_cons, ha]
    | some l =>
      have hl : ValidStr l := ho
      simp [clam_match_anychar, clam_match_end, clam_match_char_eq,
        headC_cons, ha, anycharLoop_eq_mem (a :: as) hl]

/-- Witness for claim C3: byte 65 against the wildcard, against a set
holding it, against a set missing it, and against the empty set. -/
theorem match_anychar_characterization_witness :
    clam_match_anychar [65] none = 1 ∧
    clam_match_anychar [65] (some [97, 65]) = 1 ∧
    clam_match_anychar [66] (some [97, 65]) = 0 ∧
    clam_match_anychar [65] (some []) = 0 := by
  refine ⟨?_, ?_, ?_, ?_⟩
  · have h := match_anychar_characterization [65] none (by decide) (by decide)
    rw [h]; decide
  · have h := match_anychar_characterization [65] (some [97, 65])
      (by decide) (by decide)
    rw [h]; decide
  · have h := match_anychar_characterization [66] (some [97, 65])
      (by decide) (by decide)
    rw [h]; decide
  · have h := match_anychar_characterization [65] (some [])
      (by decide) (by decide)
    rw [h]; decide

/-- Claim C4, counterexample: clam_match_char (a matcher other than
clam_match_end) with the terminator character on empty input returns a
non-zero result that exceeds the length of the input. -/
theorem result_le_length_counterexample :
    clam_match_char [] 0 ≠ 0 ∧
    List.length ([] : List Nat) < clam_match_char [] 0 := by
  decide

/-- Claim C4 as amended: for every matcher in the library other than
clam_match_end — with clam_match_char restricted to characters other than
the terminator — the result never exceeds the length of the input, so any
non-zero result is a valid prefix length. -/
theorem matchers_result_le_length (input cs : List Nat) (n : Nat)
    (o : Option (List Nat)) (c : Nat) (hc : c ≠ 0) :
    clam_match_char input c ≤ input.length ∧
    clam_match_anychar input o ≤ input.length ∧
    clam_match_numeric10_char input ≤ input.length ∧
    clam_match_numeric16_char input ≤ input.length ∧
    clam_match_uppercase_char input ≤ input.length ∧
    clam_match_lowercase_char input ≤ input.length ∧
    clam_match_alpha_char input ≤ input.length ∧
    clam_match_alphanumeric_char input ≤ input.length ∧
    clam_match_at_least_n_chars input n cs ≤ input.length ∧
    clam_match_chars input cs ≤ input.length ∧
    clam_match_chars_to_end input cs ≤ input.length ∧
    clam_match_unsigned_integer10 input ≤ input.length ∧
    clam_match_signed_integer10 input ≤ input.length ∧
    clam_match_posix_option input o ≤ input.length ∧
    clam_match_posix_long_option input cs ≤ input.length ∧
    clam_match_posix_flags input o ≤ input.length ∧
    clam_match_posix_terminate_options input ≤ input.length ∧
    clam_match_windows_switch input o ≤ input.length ∧
    clam_match_windows_long_switch input cs ≤ input.length :=
  ⟨clam_match_char_le input hc,
   clam_match_anychar_le input o,
   clam_match_numeric10_char_le input,
   clam_match_numeric16_char_le input,
   clam_match_uppercase_char_le input,
   clam_match_lowercase_char_le input,
   clam_match_alpha_char_le input,
   clam_match_alphanumeric_char_le input,
   clam_match_at_least_n_chars_le input n cs,
   clam_match_chars_le input cs,
   clam_match_chars_to_end_le input cs,
   clam_match_unsigned_integer10_le input,
   clam_match_signed_integer10_le input,
   clam_match_posix_option_le input o,
   clam_match_posix_long_option_le input cs,
   clam_match_posix_flags_le input o,
   clam_match_posix_terminate_options_le input,
   clam_match_windows_switch_le input o,
   clam_match_windows_long_switch_le input cs⟩

/-- Witness for amended claim C4 at a concrete instantiation. -/
theorem matchers_result_le_length_witness :
    clam_match_char [45, 97] 45 ≤ 2 :=
  (matchers_result_le_length [45, 97] [97] 1 (some [97]) 45 (by decide)).1

/-- Claim C5, counterexample: on the input holding the single dash and a
non-empty option literal, the input does start with a dash yet the result
is 0, not 1 plus clam_match_chars of the rest (which would be 1). -/
theorem posix_long_option_counterexample :
    clam_match_char [45] 45 ≠ 0 ∧
    clam_match_posix_long_option [45] [120] ≠
      1 + clam_match_chars (List.drop 1 [45]) [120] := by
  decide

/-- Claim C5 as amended: clam_match_posix_long_option returns 0 when the
input does not start with a dash; otherwise it returns
1 + clam_match_chars(rest, option) when that inner match is non-zero, and
0 when the inner match is 0 (so in particular 0 overall when the option
literal is not a prefix of the rest or is empty). -/
theorem posix_long_option_characterization (input opt : List Nat) :
    clam_match_posix_long_option input opt =
      if headC input = 45 then
        (if clam_match_chars (input.drop 1) opt = 0 then 0
         else 1 + clam_match_chars (input.drop 1) opt)
      else 0 := by
  simp only [clam_match_posix_long_option, clam_match_char_eq]
  split_ifs <;> first | rfl | omega | simp_all

/-- Claim C6: with i the number of equal leading characters of input and
chars (their longest common prefix, bounded by the shorter of the two
lists), clam_match_at_least_n_chars returns i when i is at least n and 0
otherwise. -/
theorem at_least_n_chars_characterization (input chars : List Nat) (n : Nat)
    (hi : ValidStr input) (hc : ValidStr chars) :
    clam_match_at_least_n_chars input n chars =
      (if lcp input chars ≥ n then lcp input chars else 0) ∧
    lcp input chars ≤ input.length ∧ lcp input chars ≤ chars.length := by
  refine ⟨?_, lcp_le_left input chars hi hc, lcp_le_right input chars hi hc⟩
  simp only [clam_match_at_least_n_chars, lockstep_eq_lcp input chars hi hc]

/-- Witness for claim C6 at the three worked examples of the spec. -/
theorem at_least_n_chars_characterization_witness :
    clam_match_at_least_n_chars [65, 66, 67] 2 [65, 66, 67] = 3 ∧
    clam_match_at_least_n_chars [65, 66, 81] 2 [65, 66, 67] = 2 ∧
    clam_match_at_least_n_chars [65, 66, 81] 3 [65, 66, 67] = 0 := by
  refine ⟨?_, ?_, ?_⟩
  · have h := (at_least_n_chars_characterization [65, 66, 67] [65, 66, 67] 2
      (by decide) (by decide)).1
    rw [h]; decide
  · have h := (at_least_n_chars_characterization [65, 66, 81] [65, 66, 67] 2
      (by decide) (by decide)).1
    rw [h]; decide
  · have h := (at_least_n_chars_characterization [65, 66, 81] [65, 66, 67] 3
      (by decide) (by decide)).1
    rw [h]; decide

/-- Claim C7: clam_match_signed_integer10 consumes at most one leading
sign byte (43 or 45), then the maximal leading digit run of the remainder;
it returns the sign length plus the digit-run length when the run is
non-empty and 0 when no digit follows the optional sign. -/
theorem signed_integer10_characterization (input : List Nat) :
    clam_match_signed_integer10 input =
      (let sign : Nat := if headC input = 45 ∨ headC input = 43 then 1 else 0
       let digits := digitRun (input.drop sign)
       if digits = 0 then 0 else sign + digits) := by
  simp only [clam_match_signed_integer10, clam_match_anychar_signs,
    unsigned_eq_digitRun]
  split_ifs <;> first | rfl | omega | contradiction

/-- Claim C8: clam_match_posix_option always returns 0 or 2; it returns 2
exactly when the input starts with a dash followed by an alphanumeric byte
accepted by the allow-set (any alphanumeric byte for the null wildcard);
and the result only depends on the first two bytes of the input. -/
theorem posix_option_characterization (input : List Nat)
    (allowed : Option (List Nat)) (ha : ValidOpt allowed) :
    (clam_match_posix_option input allowed = 0 ∨
     clam_match_posix_option input allowed = 2) ∧
    (clam_match_posix_option input allowed = 2 ↔
      ∃ y rest, input = 45 :: y :: rest ∧ isAlnum y ∧ allowedMem allowed y) ∧
    clam_match_posix_option input allowed =
      clam_match_posix_option (input.take 2) allowed := by
  refine ⟨?_, ?_, ?_⟩
  · simp only [clam_match_posix_option]
    split_ifs <;> simp
  · match input with
    | [] =>
      constructor
      · intro h2
        simp [clam_match_posix_option, clam_match_char_eq, headC_nil] at h2
      · rintro ⟨y, rest, heq, -, -⟩
        exact absurd heq (by simp)
    | [a] =>
      constructor
      · intro h2
        simp [clam_match_posix_option, clam_match_alphanumeric_char,
          clam_match_alpha_char, clam_match_lowercase_char,
          clam_match_uppercase_char, clam_match_numeric10_char, headC] at h2
      · rintro ⟨y, rest, heq, -, -⟩
        simp at heq
    | a :: b :: rest =>
      simp only [clam_match_posix_option, List.drop_succ_cons, List.drop_zero]
      split_ifs with hcond
      · obtain ⟨h1, hA, hC⟩ := hcond
        have ha45 : a = 45 := by
          have := clam_match_char_ne_zero.mp h1
          rwa [headC_cons] at this
        have hb : isAlnum b := by
          rw [alnum_eq, headC_cons] at hA
          split_ifs at hA with hx
          · exact hx
          · exact absurd rfl hA
        have hb0 : headC (b :: rest) ≠ 0 := by
          rw [headC_cons]; unfold isAlnum at hb; omega
        have hm := (anychar_pos_iff ha hb0).mp hC
        rw [headC_cons] at hm
        constructor
        · intro _
          exact ⟨b, rest, by rw [ha45], hb, hm⟩
        · intro _
          rfl
      · constructor
        · intro h0
          exact absurd h0 (by simp)
        · rintro ⟨y, rest2, heq, hy, hmem⟩
          obtain ⟨h1eq, h2eq, h3eq⟩ : a = 45 ∧ b = y ∧ rest = rest2 := by
            simpa using heq
          subst h1eq
          subst h2eq
          subst h3eq
          exfalso
          apply hcond
          have hb0 : headC (b :: rest) ≠ 0 := by
            rw [headC_cons]; unfold isAlnum at hy; omega
          refine ⟨clam_match_char_ne_zero.mpr (headC_cons 45 (b :: rest)),
            ?_, ?_⟩
          · rw [alnum_eq, headC_cons]
            simp [hy]
          · exact (anychar_pos_iff ha hb0).mpr (by rwa [headC_cons])
  · match input with
    | [] => rfl
    | [a] => rfl
    | a :: b :: rest =>
      have ht : (a :: b :: rest).take 2 = [a, b] := rfl
      have hA := clam_match_anychar_headC (b :: rest) [b] allowed rfl
      rw [ht]
      simp only [clam_match_posix_option, List.drop_succ_cons, List.drop_zero,
        clam_match_char_eq, headC_cons, alnum_eq, hA]

/-- Witness for claim C8: the option a (byte 97) against the allow-set
dacb1, matching with the result 2. -/
theorem posix_option_characterization_witness :
    clam_match_posix_option [45, 97] (some [100, 97, 99, 98, 49]) = 2 := by
  have h := (posix_option_characterization [45, 97]
    (some [100, 97, 99, 98, 49]) (by decide)).2.1
  exact h.mpr ⟨97, [], rfl, by decide, by decide⟩

/-- Claim C9: clam_match_posix_terminate_options of a valid string returns
2 exactly on the two-dash string and 0 in every other case, and it equals
clam_match_chars_to_end of the input against the two-dash literal. -/
theorem posix_terminate_options_characterization (input : List Nat)
    (h : ValidStr input) :
    clam_match_posix_terminate_options input =
      (if input = [45, 45] then 2 else 0) ∧
    clam_match_posix_terminate_options input =
      clam_match_chars_to_end input [45, 45] := by
  refine ⟨?_, rfl⟩
  have hdd : ValidStr [45, 45] := by decide
  rw [show clam_match_posix_terminate_options input =
      clam_match_chars_to_end input [45, 45] from rfl,
    clam_match_chars_to_end_eq input [45, 45] h hdd]
  simp

/-- Witness for claim C9 at the two-dash input and at a three-byte
input starting with two dashes. -/
theorem posix_terminate_options_characterization_witness :
    clam_match_posix_terminate_options [45, 45] = 2 ∧
    clam_match_posix_terminate_options [45, 45, 97] = 0 := by
  constructor
  · have h := (posix_terminate_options_characterization [45, 45]
      (by decide)).1
    rw [h]; decide
  · have h := (posix_terminate_options_characterization [45, 45, 97]
      (by decide)).1
    rw [h]; decide

/-- Claim C10: whenever clam_match_posix_flags returns a non-zero result
on a valid input with a valid (or wildcard) allow-set, that result equals
the full length of the input and is at least 2; moreover the input starts
with a dash and every character after it is an accepted alphanumeric flag
character — the flags matcher never matches an input with a trailer. -/
theorem posix_flags_success_characterization (input : List Nat)
    (allowed : Option (List Nat)) (hv : ValidStr input) (ho : ValidOpt allowed)
    (h : clam_match_posix_flags input allowed ≠ 0) :
    clam_match_posix_flags input allowed = input.length ∧
    2 ≤ input.length ∧
    input.head? = some 45 ∧
    ∀ c ∈ input.tail, isAlnum c ∧ allowedMem allowed c := by
  simp only [clam_match_posix_flags] at h ⊢
  by_cases h1 : clam_match_char input 45 = 0
  · rw [if_pos h1] at h
    exact absurd rfl h
  · rw [if_neg h1] at h ⊢
    have hd : headC input = 45 := clam_match_char_ne_zero.mp h1
    have h1' : clam_match_char input 45 = 1 := by
      simp [clam_match_char_eq, hd]
    obtain ⟨tl, rfl⟩ : ∃ tl, input = 45 :: tl := by
      cases input with
      | nil => simp [headC_nil] at hd
      | cons x xs =>
        rw [headC_cons] at hd
        exact ⟨xs, by rw [hd]⟩
    obtain ⟨-, htl⟩ := valid_cons hv
    rw [h1', List.drop_succ_cons, List.drop_zero] at h ⊢
    cases hfl : flagsLoop allowed tl with
    | none => rw [hfl] at h; exact absurd rfl h
    | some k =>
      rw [hfl] at h
      dsimp only at h ⊢
      have hk := flagsLoop_valid_len allowed tl htl k hfl
      have hk1 : 1 ≤ k := by
        by_contra hx
        rw [if_neg (by omega)] at h
        exact absurd rfl h
      refine ⟨?_, by simp; omega, rfl, ?_⟩
      · rw [if_pos (by omega)]
        simp only [hk, List.length_cons]
        omega
      · simpa using flagsLoop_mem allowed tl ho htl k hfl

/-- Witness for claim C10 at the flags input -ab with the wildcard
allow-set. -/
theorem posix_flags_success_characterization_witness :
    clam_match_posix_flags [45, 97, 98] none = 3 := by
  have h := (posix_flags_success_characterization [45, 97, 98] none
    (by decide) (by decide) (by decide)).1
  simpa using h

end Clam
